import Mathlib

/-
Verification of the custom numerical core of the Work_Python physics demos:
the central-gravity velocity law of planet.py (scalar and batched paths),
the accretion-merge rule, the k-nearest-neighbor pair construction, and the
softened pairwise attraction of BouncingBalls.py.

Positions, velocities, masses and radii are embedded as exact reals (the
Python code uses IEEE doubles; the spec states the laws over the reals and
asks for agreement to floating-point tolerance, which is exact equality in
this embedding).  The neighbor-pair construction, which uses only squared
distances and comparisons, is embedded over the rationals so that it stays
executable.
-/

namespace PlanetSim

/-! ### Configuration constants of planet.py -/

/-- planet.py: gravityStrength = 5.0e6 -/
def gravityStrength : ℝ := 5000000

/-- planet.py: center = pymunk.Vec2d(450, 450), x coordinate. -/
def centerX : ℝ := 450

/-- planet.py: center = pymunk.Vec2d(450, 450), y coordinate. -/
def centerY : ℝ := 450

/-- planet.py: NEIGHBOR_G = gravityStrength * 0.001 -/
noncomputable def neighborG : ℝ := gravityStrength * (1/1000)

/-- planet.py: NEIGHBOR_SOFTENING = 25.0 -/
def neighborSoftening : ℝ := 25

/-! ### CentralGravityLaw: scalar and batched velocity updates (C1) -/

/-- planet.py, planet_gravity lines 63-65: the acceleration
`g = (p - center) * -gravityStrength / (sq_dist * math.sqrt(sq_dist))`
with `sq_dist = p.get_distance_squared(center)`.  Vec2d scalar
multiplication and division act componentwise. -/
noncomputable def planet_gravity_g (p : ℝ × ℝ) : ℝ × ℝ :=
  let sqDist := (p.1 - centerX) ^ 2 + (p.2 - centerY) ^ 2
  (((p.1 - centerX) * (-gravityStrength)) / (sqDist * Real.sqrt sqDist),
   ((p.2 - centerY) * (-gravityStrength)) / (sqDist * Real.sqrt sqDist))

/-- Modelled from the spec: the external engine's
`pymunk.Body.update_velocity(body, g, damping, dt)` hook used by
planet_gravity (the engine itself is not part of this repository).
Spec 4.3(a): the scalar path returns
`new velocity = damping * velocity + a * dt` (the body carries no
accumulated extra force in this demo). -/
noncomputable def update_velocity (v g : ℝ × ℝ) (damping dt : ℝ) : ℝ × ℝ :=
  (v.1 * damping + g.1 * dt, v.2 * damping + g.2 * dt)

/-- planet.py, planet_gravity lines 59-68: the full scalar velocity-update
path, computing the central acceleration and handing it to the engine's
update_velocity. -/
noncomputable def planet_gravity (p v : ℝ × ℝ) (damping dt : ℝ) : ℝ × ℝ :=
  update_velocity v (planet_gravity_g p) damping dt

/-- planet.py, batched_planet_gravity lines 82-92, for one body of the
batch: `sq_dist = (p_x-cx)^2 + (p_y-cy)^2`,
`scaled = -gravityStrength / (sq_dist * sqrt(sq_dist))`,
`g = (p - c) * scaled`, `new_v = v + g * dt`. -/
noncomputable def batched_planet_gravity (p v : ℝ × ℝ) (dt : ℝ) : ℝ × ℝ :=
  let sqDist := (p.1 - centerX) ^ 2 + (p.2 - centerY) ^ 2
  let scaled := -gravityStrength / (sqDist * Real.sqrt sqDist)
  (v.1 + ((p.1 - centerX) * scaled) * dt,
   v.2 + ((p.2 - centerY) * scaled) * dt)

/-! ### AccretionMerger: the merged body (C2, C3) -/

/-- A circular body as the merge pass sees it: position, velocity,
shape mass, circle radius (all engine-owned, read through the shape). -/
structure PBody where
  px : ℝ
  py : ℝ
  vx : ℝ
  vy : ℝ
  m : ℝ
  r : ℝ

instance : Inhabited PBody := ⟨⟨0, 0, 0, 0, 0, 0⟩⟩

/-- planet.py, _merge_pair lines 152-176 (the successful path): the merged
body has mass `M = m1 + m2`, position `(p1*m1 + p2*m2) / M`, velocity
`(v1*m1 + v2*m2) / M`, radius `(r1**3 + r2**3) ** (1.0/3.0)`. -/
noncomputable def mergedBody (b1 b2 : PBody) : PBody where
  px := (b1.px * b1.m + b2.px * b2.m) / (b1.m + b2.m)
  py := (b1.py * b1.m + b2.py * b2.m) / (b1.m + b2.m)
  vx := (b1.vx * b1.m + b2.vx * b2.m) / (b1.m + b2.m)
  vy := (b1.vy * b1.m + b2.vy * b2.m) / (b1.m + b2.m)
  m := b1.m + b2.m
  r := (b1.r ^ 3 + b2.r ^ 3) ^ ((1 : ℝ) / 3)

/-- C1: Central gravity scalar/batch equivalence.  For every position p
distinct from the center, every velocity v and step dt, with damping = 1,
the scalar per-body path and the vectorized batch path compute the same
updated velocity, and that common value is `v + a*dt` with
`a = -G * (p - c) / r^3`, `r = |p - c|`. -/
theorem central_gravity_scalar_batch_equiv (p v : ℝ × ℝ) (dt : ℝ)
    (_hp : p ≠ (centerX, centerY)) :
    planet_gravity p v 1 dt = batched_planet_gravity p v dt ∧
    planet_gravity p v 1 dt =
      (v.1 + (-gravityStrength * (p.1 - centerX) /
        Real.sqrt ((p.1 - centerX) ^ 2 + (p.2 - centerY) ^ 2) ^ 3) * dt,
       v.2 + (-gravityStrength * (p.2 - centerY) /
        Real.sqrt ((p.1 - centerX) ^ 2 + (p.2 - centerY) ^ 2) ^ 3) * dt) := by
  have hd : (0:ℝ) ≤ (p.1 - centerX) ^ 2 + (p.2 - centerY) ^ 2 := by positivity
  have hcube : Real.sqrt ((p.1 - centerX) ^ 2 + (p.2 - centerY) ^ 2) ^ 3 =
      ((p.1 - centerX) ^ 2 + (p.2 - centerY) ^ 2) *
        Real.sqrt ((p.1 - centerX) ^ 2 + (p.2 - centerY) ^ 2) := by
    have h2 : Real.sqrt ((p.1 - centerX) ^ 2 + (p.2 - centerY) ^ 2) ^ 2 =
        (p.1 - centerX) ^ 2 + (p.2 - centerY) ^ 2 := Real.sq_sqrt hd
    calc Real.sqrt ((p.1 - centerX) ^ 2 + (p.2 - centerY) ^ 2) ^ 3
        = Real.sqrt ((p.1 - centerX) ^ 2 + (p.2 - centerY) ^ 2) ^ 2 *
          Real.sqrt ((p.1 - centerX) ^ 2 + (p.2 - centerY) ^ 2) := by ring
      _ = _ := by rw [h2]
  constructor
  · simp only [planet_gravity, planet_gravity_g, update_velocity,
      batched_planet_gravity, Prod.mk.injEq]
    constructor <;> ring
  · simp only [planet_gravity, planet_gravity_g, update_velocity, hcube,
      Prod.mk.injEq]
    constructor <;> ring

/-- C1 witness: the equivalence at the concrete input p = (0, 0),
v = (1, 2), dt = 1/60. -/
theorem central_gravity_scalar_batch_equiv_witness :
    planet_gravity (0, 0) (1, 2) 1 (1/60) =
      batched_planet_gravity (0, 0) (1, 2) (1/60) :=
  (central_gravity_scalar_batch_equiv (0, 0) (1, 2) (1/60)
    (by norm_num [Prod.ext_iff, centerX])).1

/-- C2: Merge momentum conservation.  For positive masses the merged body
has mass m1 + m2, mass-weighted average position and velocity, and the
total linear momentum is conserved exactly. -/
theorem merge_momentum_conservation (b1 b2 : PBody)
    (h1 : 0 < b1.m) (h2 : 0 < b2.m) :
    (mergedBody b1 b2).m = b1.m + b2.m ∧
    (mergedBody b1 b2).px = (b1.m * b1.px + b2.m * b2.px) / (b1.m + b2.m) ∧
    (mergedBody b1 b2).py = (b1.m * b1.py + b2.m * b2.py) / (b1.m + b2.m) ∧
    (mergedBody b1 b2).vx = (b1.m * b1.vx + b2.m * b2.vx) / (b1.m + b2.m) ∧
    (mergedBody b1 b2).vy = (b1.m * b1.vy + b2.m * b2.vy) / (b1.m + b2.m) ∧
    (mergedBody b1 b2).m * (mergedBody b1 b2).vx =
      b1.m * b1.vx + b2.m * b2.vx ∧
    (mergedBody b1 b2).m * (mergedBody b1 b2).vy =
      b1.m * b1.vy + b2.m * b2.vy := by
  have hM : b1.m + b2.m ≠ 0 := by positivity
  refine ⟨rfl, by simp only [mergedBody]; ring_nf,
    by simp only [mergedBody]; ring_nf,
    by simp only [mergedBody]; ring_nf,
    by simp only [mergedBody]; ring_nf, ?_, ?_⟩
  · show (b1.m + b2.m) * ((b1.vx * b1.m + b2.vx * b2.m) / (b1.m + b2.m)) = _
    field_simp
    ring
  · show (b1.m + b2.m) * ((b1.vy * b1.m + b2.vy * b2.m) / (b1.m + b2.m)) = _
    field_simp
    ring

/-- C2 witness: momentum conservation at concrete bodies with masses 1
and 3. -/
theorem merge_momentum_conservation_witness :
    (mergedBody ⟨0, 0, 2, 0, 1, 1⟩ ⟨4, 0, 0, 2, 3, 1⟩).m *
        (mergedBody ⟨0, 0, 2, 0, 1, 1⟩ ⟨4, 0, 0, 2, 3, 1⟩).vx =
      (1 : ℝ) * 2 + 3 * 0 :=
  ((merge_momentum_conservation ⟨0, 0, 2, 0, 1, 1⟩ ⟨4, 0, 0, 2, 3, 1⟩
    (by norm_num) (by norm_num)).2.2.2.2.2.1).trans (by norm_num)

/-- C3: Merge volume conservation.  For nonnegative radii the merged
radius cubes to the sum of the two radius cubes. -/
theorem merge_volume_conservation (b1 b2 : PBody)
    (h1 : 0 ≤ b1.r) (h2 : 0 ≤ b2.r) :
    (mergedBody b1 b2).r ^ 3 = b1.r ^ 3 + b2.r ^ 3 := by
  have hs : (0:ℝ) ≤ b1.r ^ 3 + b2.r ^ 3 := by positivity
  show ((b1.r ^ 3 + b2.r ^ 3) ^ ((1 : ℝ) / 3)) ^ (3:ℕ) = _
  rw [← Real.rpow_natCast ((b1.r ^ 3 + b2.r ^ 3) ^ ((1 : ℝ) / 3)) 3,
    ← Real.rpow_mul hs]
  norm_num

/-- C3 witness: volume conservation at concrete radii 1 and 2. -/
theorem merge_volume_conservation_witness :
    (mergedBody ⟨0, 0, 0, 0, 1, 1⟩ ⟨4, 0, 0, 0, 1, 2⟩).r ^ 3 =
      (1 : ℝ) ^ 3 + 2 ^ 3 :=
  merge_volume_conservation ⟨0, 0, 0, 0, 1, 1⟩ ⟨4, 0, 0, 0, 1, 2⟩
    (by norm_num) (by norm_num)

/-! ### SoftenedGravityLaw: BouncingBalls pairwise attraction (C4, C5, C6) -/

/-- BouncingBalls.py: ATTR_G = 2.0e6 -/
def attrG : ℝ := 2000000

/-- BouncingBalls.py: ATTR_SOFTENING = 100.0 -/
def attrSoftening : ℝ := 100

/-- BouncingBalls.py: ATTR_MAX_FORCE = 2.0e3 -/
def attrMaxForce : ℝ := 2000

open Classical in
/-- BouncingBalls.py, clamp_force lines 196-203: `mag2 = vx*vx + vy*vy`;
if `mag2 <= 0` return (0,0); if `mag2 <= max_f*max_f` return unchanged;
else scale by `s = max_f / (mag2 ** 0.5)`. -/
noncomputable def clamp_force (vx vy maxf : ℝ) : ℝ × ℝ :=
  let mag2 := vx * vx + vy * vy
  if mag2 ≤ 0 then (0, 0)
  else if mag2 ≤ maxf * maxf then (vx, vy)
  else
    let s := maxf / Real.sqrt mag2
    (vx * s, vy * s)

open Classical in
/-- BouncingBalls.py, _apply_neighbor_attraction lines 234-249: the raw
(unclamped) pair force `F = (dx*scale, dy*scale)` with
`scale = ATTR_G * mi * mj * inv_r3`, `inv_r3 = (rs2 ** -0.5) ** 3`,
`rs2 = r2 + soft2`; a pair with `r2 <= 0` is skipped (zero force). -/
noncomputable def bb_raw_force (pix piy pjx pjy mi mj : ℝ) : ℝ × ℝ :=
  let dx := pjx - pix
  let dy := pjy - piy
  let r2 := dx * dx + dy * dy
  if r2 ≤ 0 then (0, 0)
  else
    let rs2 := r2 + attrSoftening * attrSoftening
    let inv_r := (Real.sqrt rs2)⁻¹
    let inv_r3 := inv_r * inv_r * inv_r
    let scale := attrG * mi * mj * inv_r3
    (dx * scale, dy * scale)

open Classical in
/-- BouncingBalls.py, _apply_neighbor_attraction lines 234-254: for one
processed pair (i, j), the pair of forces actually applied, first
component to body i (`bi.apply_force_at_world_point((fx, fy), pi)`),
second component to body j
(`bj.apply_force_at_world_point((-fx, -fy), pj)`), where `(fx, fy)` is
the clamped raw force. -/
noncomputable def bb_applied_forces (pix piy pjx pjy mi mj : ℝ) :
    (ℝ × ℝ) × (ℝ × ℝ) :=
  let dx := pjx - pix
  let dy := pjy - piy
  let r2 := dx * dx + dy * dy
  if r2 ≤ 0 then ((0, 0), (0, 0))
  else
    let rs2 := r2 + attrSoftening * attrSoftening
    let inv_r := (Real.sqrt rs2)⁻¹
    let inv_r3 := inv_r * inv_r * inv_r
    let scale := attrG * mi * mj * inv_r3
    let f := clamp_force (dx * scale) (dy * scale) attrMaxForce
    (f, (-f.1, -f.2))

open Classical in
/-- planet.py, _apply_neighbor_gravity lines 246-257: the per-pair
acceleration contribution accumulated for body i:
`(dx * s_ij, dy * s_ij)` with `s_ij = NEIGHBOR_G * mass[j] * inv_r3`,
`inv_r3 = 1 / (rs2 * sqrt(rs2))`, `rs2 = r2 + soft2`; a pair with
`r2 <= 0` contributes nothing. -/
noncomputable def neighbor_accel_i (pix piy pjx pjy mi mj : ℝ) : ℝ × ℝ :=
  let dx := pjx - pix
  let dy := pjy - piy
  let r2 := dx * dx + dy * dy
  if r2 ≤ 0 then (0, 0)
  else
    let rs2 := r2 + neighborSoftening * neighborSoftening
    let inv_r3 := 1 / (rs2 * Real.sqrt rs2)
    (dx * (neighborG * mj * inv_r3), dy * (neighborG * mj * inv_r3))

open Classical in
/-- planet.py, _apply_neighbor_gravity lines 246-259: the per-pair
acceleration contribution accumulated for body j:
`(-dx * s_ji, -dy * s_ji)` with `s_ji = NEIGHBOR_G * mass[i] * inv_r3`
(`ax[j] -= dx * s_ji; ay[j] -= dy * s_ji`). -/
noncomputable def neighbor_accel_j (pix piy pjx pjy mi mj : ℝ) : ℝ × ℝ :=
  let dx := pjx - pix
  let dy := pjy - piy
  let r2 := dx * dx + dy * dy
  if r2 ≤ 0 then (0, 0)
  else
    let rs2 := r2 + neighborSoftening * neighborSoftening
    let inv_r3 := 1 / (rs2 * Real.sqrt rs2)
    (-(dx * (neighborG * mi * inv_r3)), -(dy * (neighborG * mi * inv_r3)))

open Classical in
/-- The raw pair force of the planet.py neighbor law as the spec writes
it, `F = NEIGHBOR_G * m_i * m_j * inv_r3 * d` (zero for a degenerate
pair), against which the accumulated accelerations are compared. -/
noncomputable def neighbor_pair_force (pix piy pjx pjy mi mj : ℝ) : ℝ × ℝ :=
  let dx := pjx - pix
  let dy := pjy - piy
  let r2 := dx * dx + dy * dy
  if r2 ≤ 0 then (0, 0)
  else
    let rs2 := r2 + neighborSoftening * neighborSoftening
    let inv_r3 := 1 / (rs2 * Real.sqrt rs2)
    (neighborG * mi * mj * inv_r3 * dx, neighborG * mi * mj * inv_r3 * dy)

/-- C4 counterexample: the claim says the pair force +F is applied to
body j and -F to body i.  At bodies i = ((0,0), mass 1) and
j = ((75,0), mass 1) the unclamped force is F = (76.8, 0), and the force
actually applied to body j is (-76.8, 0) = -F, not +F. -/
theorem pair_force_direction_counterexample :
    (bb_applied_forces 0 0 75 0 1 1).2 ≠ bb_raw_force 0 0 75 0 1 1 := by
  have hs : Real.sqrt 15625 = 125 := by
    rw [show (15625:ℝ) = 125 ^ 2 by norm_num]
    exact Real.sqrt_sq (by norm_num)
  simp only [bb_applied_forces, bb_raw_force, clamp_force, attrG,
    attrSoftening, attrMaxForce]
  norm_num [hs, Prod.ext_iff]

/-- C4 amended: with displacement d = p_j - p_i and pair force
F = G*m_i*m_j*inv_r3*d, the softened law applies +F to body i and -F to
body j (equal and opposite), each side converted to an acceleration via
the receiving body's own mass: in planet.py the contribution accumulated
for body i equals F/m_i and the one for body j equals -F/m_j, and in
BouncingBalls the (clamped) force is applied positively to body i and
negated to body j. -/
theorem pair_force_direction_amended (pix piy pjx pjy mi mj : ℝ)
    (hi : mi ≠ 0) (hj : mj ≠ 0) :
    neighbor_accel_i pix piy pjx pjy mi mj =
      ((neighbor_pair_force pix piy pjx pjy mi mj).1 / mi,
       (neighbor_pair_force pix piy pjx pjy mi mj).2 / mi) ∧
    neighbor_accel_j pix piy pjx pjy mi mj =
      (-(neighbor_pair_force pix piy pjx pjy mi mj).1 / mj,
       -(neighbor_pair_force pix piy pjx pjy mi mj).2 / mj) ∧
    (bb_applied_forces pix piy pjx pjy mi mj).2 =
      (-(bb_applied_forces pix piy pjx pjy mi mj).1.1,
       -(bb_applied_forces pix piy pjx pjy mi mj).1.2) := by
  refine ⟨?_, ?_, ?_⟩
  · simp only [neighbor_accel_i, neighbor_pair_force]
    split_ifs
    · norm_num
    · simp only [Prod.mk.injEq]
      constructor <;> · rw [eq_div_iff hi]; ring
  · simp only [neighbor_accel_j, neighbor_pair_force]
    split_ifs
    · norm_num
    · simp only [Prod.mk.injEq, neg_div]
      constructor <;> · refine neg_inj.2 ?_; rw [eq_div_iff hj]; ring
  · simp only [bb_applied_forces]
    split_ifs
    · norm_num
    · rfl

/-- C4 amended witness: the sign pattern at bodies of mass 1 at (0,0)
and (75,0). -/
theorem pair_force_direction_amended_witness :
    neighbor_accel_i 0 0 75 0 1 1 =
      ((neighbor_pair_force 0 0 75 0 1 1).1 / 1,
       (neighbor_pair_force 0 0 75 0 1 1).2 / 1) :=
  (pair_force_direction_amended 0 0 75 0 1 1 (by norm_num) (by norm_num)).1

/-- C5 counterexample: the claim says the raw acceleration contribution
accumulated for body i is the exact negation of the one accumulated for
body j.  At bodies i = ((0,0), mass 1) and j = ((60,0), mass 2) the
contribution for i is (600000/274625, 0) while the negated contribution
for j is (300000/274625, 0): they differ because each contribution is
scaled by the partner's mass. -/
theorem newton_third_law_counterexample :
    neighbor_accel_i 0 0 60 0 1 2 ≠
      (-(neighbor_accel_j 0 0 60 0 1 2).1,
       -(neighbor_accel_j 0 0 60 0 1 2).2) := by
  have hs : Real.sqrt 4225 = 65 := by
    rw [show (4225:ℝ) = 65 ^ 2 by norm_num]
    exact Real.sqrt_sq (by norm_num)
  simp only [neighbor_accel_i, neighbor_accel_j, neighborG,
    gravityStrength, neighborSoftening]
  norm_num [hs, Prod.ext_iff]

/-- C5 amended: after mass scaling the pairwise forces are exactly equal
and opposite (Newton's third law), the raw accumulated accelerations are
exact negations whenever the two masses coincide, and in BouncingBalls
(where forces, not accelerations, are accumulated) the per-pair
contributions are exact negations unconditionally. -/
theorem newton_third_law_amended (pix piy pjx pjy mi mj : ℝ) :
    mi * (neighbor_accel_i pix piy pjx pjy mi mj).1 =
      -(mj * (neighbor_accel_j pix piy pjx pjy mi mj).1) ∧
    mi * (neighbor_accel_i pix piy pjx pjy mi mj).2 =
      -(mj * (neighbor_accel_j pix piy pjx pjy mi mj).2) ∧
    (mi = mj →
      neighbor_accel_i pix piy pjx pjy mi mj =
        (-(neighbor_accel_j pix piy pjx pjy mi mj).1,
         -(neighbor_accel_j pix piy pjx pjy mi mj).2)) ∧
    (bb_applied_forces pix piy pjx pjy mi mj).2 =
      (-(bb_applied_forces pix piy pjx pjy mi mj).1.1,
       -(bb_applied_forces pix piy pjx pjy mi mj).1.2) := by
  refine ⟨?_, ?_, ?_, ?_⟩
  · simp only [neighbor_accel_i, neighbor_accel_j]
    split_ifs
    · norm_num
    · ring
  · simp only [neighbor_accel_i, neighbor_accel_j]
    split_ifs
    · norm_num
    · ring
  · intro hm
    subst hm
    simp only [neighbor_accel_i, neighbor_accel_j]
    split_ifs
    · norm_num
    · simp [Prod.mk.injEq, neg_neg]
  · simp only [bb_applied_forces]
    split_ifs
    · norm_num
    · rfl

/-- C5 amended witness: equal-mass raw contributions are exact negations
at bodies of mass 1 at (0,0) and (60,0). -/
theorem newton_third_law_amended_witness :
    neighbor_accel_i 0 0 60 0 1 1 =
      (-(neighbor_accel_j 0 0 60 0 1 1).1,
       -(neighbor_accel_j 0 0 60 0 1 1).2) :=
  (newton_third_law_amended 0 0 60 0 1 1).2.2.1 rfl

/-- The Euclidean magnitude of a force vector, used to state the
clamping contract. -/
noncomputable def fmag (x y : ℝ) : ℝ := Real.sqrt (x * x + y * y)

/-- C6: Force clamping.  For every maxForce > 0: a force of magnitude
above maxForce is rescaled to magnitude exactly maxForce with direction
preserved (a positive scalar multiple); a force of magnitude at most
maxForce passes through unchanged; the zero vector stays zero. -/
theorem clamp_force_spec (vx vy maxf : ℝ) (hmax : 0 < maxf) :
    (fmag vx vy > maxf →
      fmag (clamp_force vx vy maxf).1 (clamp_force vx vy maxf).2 = maxf ∧
      ∃ t : ℝ, 0 < t ∧ clamp_force vx vy maxf = (t * vx, t * vy)) ∧
    (fmag vx vy ≤ maxf → clamp_force vx vy maxf = (vx, vy)) ∧
    ((vx, vy) = ((0 : ℝ), (0 : ℝ)) →
      clamp_force vx vy maxf = ((0 : ℝ), (0 : ℝ))) := by
  have hm2 : (0:ℝ) ≤ vx * vx + vy * vy :=
    add_nonneg (mul_self_nonneg vx) (mul_self_nonneg vy)
  refine ⟨?_, ?_, ?_⟩
  · intro h
    have hgt : maxf * maxf < vx * vx + vy * vy := by
      have := mul_self_lt_mul_self (le_of_lt hmax) h
      rwa [fmag, Real.mul_self_sqrt hm2] at this
    have hpos : (0:ℝ) < vx * vx + vy * vy :=
      lt_trans (mul_pos hmax hmax) hgt
    have hsq : (0:ℝ) < Real.sqrt (vx * vx + vy * vy) := Real.sqrt_pos.2 hpos
    have hclamp : clamp_force vx vy maxf =
        (vx * (maxf / Real.sqrt (vx * vx + vy * vy)),
         vy * (maxf / Real.sqrt (vx * vx + vy * vy))) := by
      simp only [clamp_force]
      rw [if_neg (by linarith), if_neg (by linarith)]
    have hspos : 0 < maxf / Real.sqrt (vx * vx + vy * vy) := div_pos hmax hsq
    refine ⟨?_, maxf / Real.sqrt (vx * vx + vy * vy), hspos, ?_⟩
    · rw [hclamp]
      simp only [fmag]
      have hexp : vx * (maxf / Real.sqrt (vx * vx + vy * vy)) *
            (vx * (maxf / Real.sqrt (vx * vx + vy * vy))) +
          vy * (maxf / Real.sqrt (vx * vx + vy * vy)) *
            (vy * (maxf / Real.sqrt (vx * vx + vy * vy))) =
          (maxf / Real.sqrt (vx * vx + vy * vy)) *
            (maxf / Real.sqrt (vx * vx + vy * vy)) *
            (vx * vx + vy * vy) := by ring
      rw [hexp, Real.sqrt_mul (mul_self_nonneg _),
        Real.sqrt_mul_self (le_of_lt hspos),
        div_mul_cancel₀ maxf (ne_of_gt hsq)]
    · rw [hclamp]
      simp only [Prod.mk.injEq]
      constructor <;> ring
  · intro h
    by_cases h0 : vx * vx + vy * vy ≤ 0
    · have hz : vx * vx + vy * vy = 0 := le_antisymm h0 hm2
      have hvx : vx = 0 := by nlinarith [mul_self_nonneg vx, mul_self_nonneg vy]
      have hvy : vy = 0 := by nlinarith [mul_self_nonneg vx, mul_self_nonneg vy]
      simp only [clamp_force]
      rw [if_pos h0, hvx, hvy]
    · have hle : vx * vx + vy * vy ≤ maxf * maxf := by
        have := mul_self_le_mul_self (Real.sqrt_nonneg _) h
        rwa [Real.mul_self_sqrt hm2] at this
      simp only [clamp_force]
      rw [if_neg h0, if_pos hle]
  · intro h
    have hvx : vx = 0 := congrArg Prod.fst h
    have hvy : vy = 0 := congrArg Prod.snd h
    simp only [clamp_force]
    rw [if_pos (by rw [hvx, hvy]; norm_num)]

/-- C6 witness: the clamping contract at the concrete force (3, 4) with
maxForce 1. -/
theorem clamp_force_spec_witness :
    fmag (clamp_force 3 4 1).1 (clamp_force 3 4 1).2 = 1 ∧
    ∃ t : ℝ, 0 < t ∧ clamp_force 3 4 1 = (t * 3, t * 4) :=
  (clamp_force_spec 3 4 1 (by norm_num)).1 (by
    simp only [fmag]
    rw [show (3:ℝ) * 3 + 4 * 4 = 5 ^ 2 by norm_num,
      Real.sqrt_sq (by norm_num : (0:ℝ) ≤ 5)]
    norm_num)

/-! ### CentralGravityLaw: orbital seeding of add_planet (C8) -/

/-- planet.py, add_planet line 107: `r = body.position.get_distance(center)`,
the Euclidean distance of the spawn position from the center. -/
noncomputable def orbit_r (px py : ℝ) : ℝ :=
  Real.sqrt ((px - centerX) ^ 2 + (py - centerY) ^ 2)

/-- planet.py, add_planet line 115:
`v_circ = math.sqrt(gravityStrength / r) / r`. -/
noncomputable def v_circ (px py : ℝ) : ℝ :=
  Real.sqrt (gravityStrength / orbit_r px py) / orbit_r px py

/-- planet.py, add_planet line 126, non-elliptical branch (v = v_circ):
`body.velocity = (body.position - center).perpendicular() * v`, with
`Vec2d.perpendicular (x, y) = (-y, x)`. -/
noncomputable def spawn_velocity (px py : ℝ) : ℝ × ℝ :=
  (-(py - centerY) * v_circ px py, (px - centerX) * v_circ px py)

/-- C8 counterexample: the claim says the assigned velocity has magnitude
v_circ = sqrt(G_c/r)/r.  At the spawn position (950, 450), where r = 500
(above the minimum clearance 40), the assigned velocity is (0, 100) with
magnitude 100, while v_circ = sqrt(10000)/500 = 1/5: the code multiplies
the non-normalized perpendicular, of length r, by v_circ. -/
theorem orbital_seeding_counterexample :
    fmag (spawn_velocity 950 450).1 (spawn_velocity 950 450).2 ≠
      v_circ 950 450 := by
  have h1 : orbit_r 950 450 = 500 := by
    simp only [orbit_r, centerX, centerY]
    rw [show ((950:ℝ) - 450) ^ 2 + ((450:ℝ) - 450) ^ 2 = 500 ^ 2 by norm_num,
      Real.sqrt_sq (by norm_num : (0:ℝ) ≤ 500)]
  have h2 : v_circ 950 450 = 1 / 5 := by
    simp only [v_circ, h1, gravityStrength]
    rw [show (5000000:ℝ) / 500 = 100 ^ 2 by norm_num,
      Real.sqrt_sq (by norm_num : (0:ℝ) ≤ 100)]
    norm_num
  have h3 : spawn_velocity 950 450 = (0, 100) := by
    simp only [spawn_velocity, h2, centerX, centerY]
    norm_num
  have h4 : fmag 0 100 = 100 := by
    simp only [fmag]
    rw [show (0:ℝ) * 0 + 100 * 100 = 100 ^ 2 by norm_num,
      Real.sqrt_sq (by norm_num : (0:ℝ) ≤ 100)]
  rw [h3, h2, h4]
  norm_num

/-- C8 amended: for a spawn position beyond the minimum clearance
(r > 40), the non-elliptical assigned velocity is perpendicular to the
radius vector p - c, with fixed counterclockwise handedness, and its
magnitude is r * v_circ = sqrt(G_c / r) — the code multiplies the
non-normalized perpendicular (of length r) by the factor
v_circ = sqrt(G_c/r)/r. -/
theorem orbital_seeding_amended (px py : ℝ) (hr : 40 < orbit_r px py) :
    (px - centerX) * (spawn_velocity px py).1 +
      (py - centerY) * (spawn_velocity px py).2 = 0 ∧
    0 < (px - centerX) * (spawn_velocity px py).2 -
      (py - centerY) * (spawn_velocity px py).1 ∧
    fmag (spawn_velocity px py).1 (spawn_velocity px py).2 =
      orbit_r px py * v_circ px py ∧
    fmag (spawn_velocity px py).1 (spawn_velocity px py).2 =
      Real.sqrt (gravityStrength / orbit_r px py) := by
  have hrpos : 0 < orbit_r px py := lt_trans (by norm_num) hr
  have hrr : orbit_r px py * orbit_r px py =
      (px - centerX) ^ 2 + (py - centerY) ^ 2 :=
    Real.mul_self_sqrt (by positivity)
  have hvc : 0 < v_circ px py := by
    apply div_pos _ hrpos
    apply Real.sqrt_pos.2
    apply div_pos _ hrpos
    rw [gravityStrength]
    norm_num
  have hmag : fmag (spawn_velocity px py).1 (spawn_velocity px py).2 =
      v_circ px py * orbit_r px py := by
    simp only [fmag, spawn_velocity]
    have hexp : -(py - centerY) * v_circ px py *
          (-(py - centerY) * v_circ px py) +
        (px - centerX) * v_circ px py * ((px - centerX) * v_circ px py) =
        v_circ px py * orbit_r px py * (v_circ px py * orbit_r px py) := by
      have : ((px - centerX) ^ 2 + (py - centerY) ^ 2) *
            (v_circ px py * v_circ px py) =
          (orbit_r px py * orbit_r px py) *
            (v_circ px py * v_circ px py) := by rw [hrr]
      nlinarith [this]
    rw [hexp, Real.sqrt_mul_self
      (mul_nonneg (le_of_lt hvc) (le_of_lt hrpos))]
  refine ⟨?_, ?_, ?_, ?_⟩
  · simp only [spawn_velocity]
    ring
  · have hcross : (px - centerX) * (spawn_velocity px py).2 -
        (py - centerY) * (spawn_velocity px py).1 =
        v_circ px py * (orbit_r px py * orbit_r px py) := by
      simp only [spawn_velocity]
      rw [hrr]
      ring
    rw [hcross]
    positivity
  · rw [hmag]
    ring
  · rw [hmag]
    simp only [v_circ]
    rw [div_mul_cancel₀ _ (ne_of_gt hrpos)]

/-- C8 amended witness: the tangential direction and corrected magnitude
at the concrete spawn position (950, 450), where r = 500. -/
theorem orbital_seeding_amended_witness :
    ((950:ℝ) - centerX) * (spawn_velocity 950 450).1 +
      ((450:ℝ) - centerY) * (spawn_velocity 950 450).2 = 0 ∧
    fmag (spawn_velocity 950 450).1 (spawn_velocity 950 450).2 =
      Real.sqrt (gravityStrength / orbit_r 950 450) := by
  have hr : (40:ℝ) < orbit_r 950 450 := by
    simp only [orbit_r, centerX, centerY]
    rw [show ((950:ℝ) - 450) ^ 2 + ((450:ℝ) - 450) ^ 2 = 500 ^ 2 by norm_num,
      Real.sqrt_sq (by norm_num : (0:ℝ) ≤ 500)]
    norm_num
  exact ⟨(orbital_seeding_amended 950 450 hr).1,
    (orbital_seeding_amended 950 450 hr).2.2.2⟩

/-! ### NeighborField: k-nearest-neighbor pair construction (C7)

planet.py, _apply_neighbor_gravity lines 222-240 (the same construction,
with the constant K inline, appears in BouncingBalls.py lines 205-227).
Only squared distances and comparisons are involved, so this part is
embedded over the rationals and stays executable.  The Python `set`
accumulating the pairs is embedded as a `Finset`, which is also what
makes a pair processed at most once per tick. -/

/-- planet.py lines 232-234: `dx = pj.x - pi.x; dy = pj.y - pi.y;
d2 = dx*dx + dy*dy`. -/
def sqDist (p q : ℚ × ℚ) : ℚ :=
  (q.1 - p.1) * (q.1 - p.1) + (q.2 - p.2) * (q.2 - p.2)

/-- planet.py lines 226-235: the list of (squared distance, index) entries
from body i to every other body, in index order. -/
def neighborDists (n : ℕ) (pos : Fin n → ℚ × ℚ) (i : Fin n) :
    List (ℚ × Fin n) :=
  ((List.finRange n).filter (fun j => j ≠ i)).map
    (fun j => (sqDist (pos i) (pos j), j))

/-- planet.py lines 237-238: sort by squared distance (Python's stable
sort) and keep the first `max(0, min(NEIGHBOR_K, n - 1))` indices. -/
def kNearest (n K : ℕ) (pos : Fin n → ℚ × ℚ) (i : Fin n) : List (Fin n) :=
  (((neighborDists n pos i).mergeSort (fun a b => a.1 ≤ b.1)).take
    (max 0 (min K (n - 1)))).map (fun t => t.2)

/-- planet.py line 239: `a, b = (i, j) if i < j else (j, i)`. -/
def canonPair {n : ℕ} (i j : Fin n) : ℕ × ℕ :=
  if (i : ℕ) < (j : ℕ) then ((i : ℕ), (j : ℕ)) else ((j : ℕ), (i : ℕ))

/-- planet.py lines 223-240: the set of unique neighbor pairs, built by
iterating every body i and inserting the canonical form of (i, j) for
each j in i's k-nearest list. -/
def neighborPairs (n K : ℕ) (pos : Fin n → ℚ × ℚ) : Finset (ℕ × ℕ) :=
  (List.finRange n).foldl (fun acc i =>
    (kNearest n K pos i).foldl (fun acc2 j => insert (canonPair i j) acc2)
      acc) ∅

/-- Membership in a fold that inserts `f b c` for every `b` in the outer
list and `c` in the inner list `g b`. -/
theorem mem_foldl_insert_nested {α β γ : Type _} [DecidableEq α]
    (g : β → List γ) (f : β → γ → α) (l : List β) (s : Finset α) (x : α) :
    x ∈ l.foldl (fun acc b =>
        (g b).foldl (fun acc2 c => insert (f b c) acc2) acc) s ↔
      x ∈ s ∨ ∃ b ∈ l, ∃ c ∈ g b, f b c = x := by
  have inner : ∀ (b : β) (l2 : List γ) (s2 : Finset α),
      x ∈ l2.foldl (fun acc2 c => insert (f b c) acc2) s2 ↔
        x ∈ s2 ∨ ∃ c ∈ l2, f b c = x := by
    intro b l2
    induction l2 with
    | nil => simp
    | cons c t ih =>
      intro s2
      simp only [List.foldl_cons, ih, Finset.mem_insert, List.mem_cons]
      constructor
      · rintro (⟨h | h⟩ | ⟨c2, hc2, he⟩)
        · exact Or.inr ⟨c, Or.inl rfl, h.symm⟩
        · exact Or.inl h
        · exact Or.inr ⟨c2, Or.inr hc2, he⟩
      · rintro (h | ⟨c2, (rfl | hc2), he⟩)
        · exact Or.inl (Or.inr h)
        · exact Or.inl (Or.inl he.symm)
        · exact Or.inr ⟨c2, hc2, he⟩
  induction l generalizing s with
  | nil => simp
  | cons b t ih =>
    simp only [List.foldl_cons, ih, inner, List.mem_cons]
    constructor
    · rintro (⟨h | ⟨c, hc, he⟩⟩ | ⟨b2, hb2, hrest⟩)
      · exact Or.inl h
      · exact Or.inr ⟨b, Or.inl rfl, c, hc, he⟩
      · exact Or.inr ⟨b2, Or.inr hb2, hrest⟩
    · rintro (h | ⟨b2, (rfl | hb2), hrest⟩)
      · exact Or.inl (Or.inl h)
      · exact Or.inl (Or.inr hrest)
      · exact Or.inr ⟨b2, hb2, hrest⟩

/-- A body never appears in its own k-nearest list (the `i == j` indices
are filtered out before sorting). -/
theorem kNearest_ne {n K : ℕ} (pos : Fin n → ℚ × ℚ) (i j : Fin n)
    (hj : j ∈ kNearest n K pos i) : j ≠ i := by
  simp only [kNearest, List.mem_map] at hj
  obtain ⟨t, ht, rfl⟩ := hj
  have ht2 : t ∈ (neighborDists n pos i).mergeSort (fun a b => a.1 ≤ b.1) :=
    List.take_subset _ _ ht
  rw [List.mem_mergeSort] at ht2
  simp only [neighborDists, List.mem_map, List.mem_filter,
    List.mem_finRange, true_and] at ht2
  obtain ⟨j2, hj2, rfl⟩ := ht2
  simpa using hj2

/-- Unfolded membership description of the accumulated pair set. -/
theorem mem_neighborPairs {n K : ℕ} (pos : Fin n → ℚ × ℚ) (x : ℕ × ℕ) :
    x ∈ neighborPairs n K pos ↔
      ∃ i : Fin n, ∃ j ∈ kNearest n K pos i, canonPair i j = x := by
  rw [neighborPairs, mem_foldl_insert_nested]
  simp [List.mem_finRange]

/-- C7: NeighborField contract.  For every snapshot of N positions and
every K with K < N, the accumulated pair set is exactly the set of
unordered pairs in canonical (a, b) form with a < b such that b is in
a's k-nearest list or a is in b's k-nearest list (union semantics,
deduplicated by the set); for K = 0 or N < 2 the set is empty.  The
Finset model makes each unordered pair occur, hence get processed, at
most once per tick. -/
theorem neighbor_pairs_spec (n K : ℕ) (pos : Fin n → ℚ × ℚ)
    (_hK : K < n) :
    (∀ a b : ℕ, (a, b) ∈ neighborPairs n K pos ↔
      ∃ (ha : a < n) (hb : b < n), a < b ∧
        (⟨b, hb⟩ ∈ kNearest n K pos ⟨a, ha⟩ ∨
         ⟨a, ha⟩ ∈ kNearest n K pos ⟨b, hb⟩)) ∧
    (K = 0 → neighborPairs n K pos = ∅) ∧
    (n < 2 → neighborPairs n K pos = ∅) := by
  refine ⟨?_, ?_, ?_⟩
  · intro a b
    rw [mem_neighborPairs]
    constructor
    · rintro ⟨i, j, hj, hc⟩
      have hne : j ≠ i := kNearest_ne pos i j hj
      by_cases hlt : (i : ℕ) < (j : ℕ)
      · rw [canonPair, if_pos hlt] at hc
        have ha : (i : ℕ) = a := congrArg Prod.fst hc
        have hb : (j : ℕ) = b := congrArg Prod.snd hc
        subst ha
        subst hb
        refine ⟨i.isLt, j.isLt, hlt, Or.inl ?_⟩
        simpa using hj
      · rw [canonPair, if_neg hlt] at hc
        have ha : (j : ℕ) = a := congrArg Prod.fst hc
        have hb : (i : ℕ) = b := congrArg Prod.snd hc
        have hji : (j : ℕ) < (i : ℕ) := by
          have hne2 : (j : ℕ) ≠ (i : ℕ) := fun h => hne (Fin.ext h)
          omega
        subst ha
        subst hb
        refine ⟨j.isLt, i.isLt, hji, Or.inr ?_⟩
        simpa using hj
    · rintro ⟨ha, hb, hab, hj | hj⟩
      · refine ⟨⟨a, ha⟩, ⟨b, hb⟩, hj, ?_⟩
        have h1 : ((⟨a, ha⟩ : Fin n) : ℕ) = a := rfl
        have h2 : ((⟨b, hb⟩ : Fin n) : ℕ) = b := rfl
        rw [canonPair, h1, h2, if_pos hab]
      · refine ⟨⟨b, hb⟩, ⟨a, ha⟩, hj, ?_⟩
        have h1 : ((⟨a, ha⟩ : Fin n) : ℕ) = a := rfl
        have h2 : ((⟨b, hb⟩ : Fin n) : ℕ) = b := rfl
        rw [canonPair, h1, h2, if_neg (show ¬ b < a by omega)]
  · intro hK0
    apply Finset.eq_empty_of_forall_not_mem
    intro x hx
    rw [mem_neighborPairs] at hx
    obtain ⟨i, j, hj, _⟩ := hx
    rw [kNearest, hK0] at hj
    simp at hj
  · intro hn
    apply Finset.eq_empty_of_forall_not_mem
    intro x hx
    rw [mem_neighborPairs] at hx
    obtain ⟨i, j, hj, _⟩ := hx
    exact kNearest_ne pos i j hj (Fin.ext (by omega))

/-- C7 witness: the contract at the concrete snapshot of three collinear
bodies with K = 1. -/
theorem neighbor_pairs_spec_witness :
    (0, 1) ∈ neighborPairs 3 1 (fun i => ((i : ℚ), 0)) ↔
      ∃ (ha : 0 < 3) (hb : 1 < 3), 0 < 1 ∧
        (⟨1, hb⟩ ∈ kNearest 3 1 (fun i => ((i : ℚ), 0)) ⟨0, ha⟩ ∨
         ⟨0, ha⟩ ∈ kNearest 3 1 (fun i => ((i : ℚ), 0)) ⟨1, hb⟩) :=
  (neighbor_pairs_spec 3 1 (fun i => ((i : ℚ), 0)) (by norm_num)).1 0 1

/-! ### AccretionMerger: the single merge pass (C9) and merge guards (C10)

planet.py, _merge_overlaps_once lines 186-208: the snapshot of circle
shapes is scanned with outer index i ascending and inner index j > i
ascending; the first pair passing the AABB prefilter and the precise
overlap check is merged and the pass returns True; if the scan finishes,
it returns False.  The `s.space is None` re-checks never fire within a
single pass (every shape of the snapshot is in the space when the pass
starts, and the pass returns immediately after the one merge), so the
scan is embedded as a structural first-find over the body list. -/

/-- planet.py lines 200-205, the test applied to a candidate pair:
the AABB prefilter (`continue` when |dx| > rsum or |dy| > rsum) followed
by the precise circle test `p1.get_distance(p2) <= rsum`. -/
noncomputable def overlapTest (b1 b2 : PBody) : Prop :=
  ¬(|b1.px - b2.px| > b1.r + b2.r ∨ |b1.py - b2.py| > b1.r + b2.r) ∧
  Real.sqrt ((b1.px - b2.px) ^ 2 + (b1.py - b2.py) ^ 2) ≤ b1.r + b2.r

/-- The precise circle-overlap relation of the spec: center distance at
most the sum of the radii. -/
noncomputable def circleOverlap (b1 b2 : PBody) : Prop :=
  Real.sqrt ((b1.px - b2.px) ^ 2 + (b1.py - b2.py) ^ 2) ≤ b1.r + b2.r

/-- The AABB prefilter is semantics-preserving: it only skips pairs that
the precise test would reject anyway (|dx| <= dist and |dy| <= dist). -/
theorem overlapTest_iff (b1 b2 : PBody) :
    overlapTest b1 b2 ↔ circleOverlap b1 b2 := by
  constructor
  · rintro ⟨-, h⟩
    exact h
  · intro h
    refine ⟨?_, h⟩
    push_neg
    have hx : |b1.px - b2.px| ≤
        Real.sqrt ((b1.px - b2.px) ^ 2 + (b1.py - b2.py) ^ 2) := by
      rw [← Real.sqrt_sq_eq_abs]
      exact Real.sqrt_le_sqrt (by nlinarith [sq_nonneg (b1.py - b2.py)])
    have hy : |b1.py - b2.py| ≤
        Real.sqrt ((b1.px - b2.px) ^ 2 + (b1.py - b2.py) ^ 2) := by
      rw [← Real.sqrt_sq_eq_abs]
      exact Real.sqrt_le_sqrt (by nlinarith [sq_nonneg (b1.px - b2.px)])
    exact ⟨le_trans hx h, le_trans hy h⟩

open Classical in
/-- planet.py lines 196-207, inner loop: scan the bodies after position i
in order and return the offset of the first one overlapping b1. -/
noncomputable def scanInner (b1 : PBody) : List PBody → Option ℕ
  | [] => none
  | b2 :: rest =>
    if overlapTest b1 b2 then some 0
    else (scanInner b1 rest).map (fun k => k + 1)

open Classical in
/-- planet.py lines 190-208, outer loop: return the index pair (i, j),
i < j, of the first overlapping pair in scan order, if any. -/
noncomputable def scanOuter : List PBody → Option (ℕ × ℕ)
  | [] => none
  | b1 :: rest =>
    match scanInner b1 rest with
    | some k => some (0, k + 1)
    | none => (scanOuter rest).map (fun p => (p.1 + 1, p.2 + 1))

/-- planet.py, _merge_pair lines 181-183 on the found pair: the two
bodies are removed from the world and the merged body is added. -/
noncomputable def mergeAt (w : List PBody) (i j : ℕ) : List PBody :=
  ((w.eraseIdx j).eraseIdx i) ++
    [mergedBody (w.getD i default) (w.getD j default)]

open Classical in
/-- planet.py, _merge_pair lines 143-183 as invoked from the scan: both
shapes are circles still in the space, so the remaining guard is
`M <= 0`, under which nothing is removed or added. -/
noncomputable def merge_pair_at (w : List PBody) (i j : ℕ) : List PBody :=
  if (w.getD i default).m + (w.getD j default).m ≤ 0 then w
  else mergeAt w i j

open Classical in
/-- planet.py, _merge_overlaps_once lines 186-208: merge the first
overlapping pair in scan order and report whether a pair was found. -/
noncomputable def merge_overlaps_once (w : List PBody) : Bool × List PBody :=
  match scanOuter w with
  | some (i, j) => (true, merge_pair_at w i j)
  | none => (false, w)

/-- The pair (i, j) is the first overlapping pair in scan order: i < j,
both in range, the precise overlap test holds, and every pair strictly
earlier in the (outer i, inner j) scan order fails it. -/
noncomputable def FirstOverlap (w : List PBody) (i j : ℕ) : Prop :=
  i < j ∧ j < w.length ∧
  circleOverlap (w.getD i default) (w.getD j default) ∧
  ∀ i' j', i' < j' → j' < w.length → (i' < i ∨ (i' = i ∧ j' < j)) →
    ¬ circleOverlap (w.getD i' default) (w.getD j' default)

/-- The inner scan returns none exactly when b1 overlaps none of the
listed bodies. -/
theorem scanInner_none (b1 : PBody) (l : List PBody) :
    scanInner b1 l = none ↔
      ∀ k < l.length, ¬ overlapTest b1 (l.getD k default) := by
  classical
  induction l with
  | nil =>
    constructor
    · intro _ k hk
      simp at hk
    · intro _
      rfl
  | cons b2 rest ih =>
    have hunf : scanInner b1 (b2 :: rest) =
        if overlapTest b1 b2 then some 0
        else (scanInner b1 rest).map (fun k => k + 1) := rfl
    rw [hunf]
    by_cases h : overlapTest b1 b2
    · rw [if_pos h]
      constructor
      · intro he
        exact absurd he (by simp)
      · intro hall
        exact absurd (by simpa using h) (hall 0 (by simp))
    · rw [if_neg h, Option.map_eq_none', ih]
      constructor
      · intro hall k hk
        cases k with
        | zero => simpa using h
        | succ k1 =>
          rw [List.getD_cons_succ]
          exact hall k1 (by simpa using hk)
      · intro hall k hk
        have := hall (k + 1) (by simpa using hk)
        rwa [List.getD_cons_succ] at this

/-- The inner scan returns some k exactly when b1 overlaps the body at
offset k and none before it. -/
theorem scanInner_some (b1 : PBody) (l : List PBody) (k : ℕ) :
    scanInner b1 l = some k ↔
      k < l.length ∧ overlapTest b1 (l.getD k default) ∧
      ∀ k' < k, ¬ overlapTest b1 (l.getD k' default) := by
  classical
  induction l generalizing k with
  | nil =>
    constructor
    · intro he
      exact absurd he (by simp [scanInner])
    · rintro ⟨hk, -, -⟩
      simp at hk
  | cons b2 rest ih =>
    have hunf : scanInner b1 (b2 :: rest) =
        if overlapTest b1 b2 then some 0
        else (scanInner b1 rest).map (fun k => k + 1) := rfl
    rw [hunf]
    by_cases h : overlapTest b1 b2
    · rw [if_pos h]
      cases k with
      | zero =>
        constructor
        · intro _
          refine ⟨by simp, by simpa using h, ?_⟩
          intro k' hk'
          exact absurd hk' (Nat.not_lt_zero k')
        · intro _
          rfl
      | succ k1 =>
        constructor
        · intro he
          exact absurd (Option.some.inj he) (by omega)
        · rintro ⟨-, -, hmin⟩
          exact absurd (by simpa using h) (hmin 0 (Nat.succ_pos _))
    · rw [if_neg h]
      cases k with
      | zero =>
        rw [Option.map_eq_some']
        constructor
        · rintro ⟨k0, -, hk0⟩
          omega
        · rintro ⟨-, h0, -⟩
          exact absurd (by simpa using h0) h
      | succ k1 =>
        rw [Option.map_eq_some']
        constructor
        · rintro ⟨k0, hs, he⟩
          have hk0 : k1 = k0 := by omega
          subst hk0
          obtain ⟨hlen, hov, hmin⟩ := (ih k1).1 hs
          refine ⟨by simpa using hlen, by simpa using hov, ?_⟩
          intro k' hk'
          cases k' with
          | zero => simpa using h
          | succ k2 =>
            rw [List.getD_cons_succ]
            exact hmin k2 (by omega)
        · rintro ⟨hlen, hov, hmin⟩
          refine ⟨k1, ?_, rfl⟩
          rw [ih k1]
          refine ⟨by simpa using hlen, by simpa using hov, ?_⟩
          intro k2 hk2
          have := hmin (k2 + 1) (by omega)
          rwa [List.getD_cons_succ] at this

/-- The outer scan returns none exactly when no pair (i, j) with i < j
passes the overlap test. -/
theorem scanOuter_none (l : List PBody) :
    scanOuter l = none ↔
      ∀ i j, i < j → j < l.length →
        ¬ overlapTest (l.getD i default) (l.getD j default) := by
  classical
  induction l with
  | nil =>
    constructor
    · intro _ i j hij hj
      exact absurd hj (by simp)
    · intro _
      rfl
  | cons b1 rest ih =>
    have hunf : scanOuter (b1 :: rest) =
        (match scanInner b1 rest with
         | some k => some (0, k + 1)
         | none => (scanOuter rest).map (fun p => (p.1 + 1, p.2 + 1))) := rfl
    rw [hunf]
    cases hscan : scanInner b1 rest with
    | some k =>
      obtain ⟨hk, hov, -⟩ := (scanInner_some b1 rest k).1 hscan
      constructor
      · intro he
        exact absurd he (by simp)
      · intro hall
        refine absurd ?_ (hall 0 (k + 1) (by omega)
          (by simp only [List.length_cons]; omega))
        rw [List.getD_cons_zero, List.getD_cons_succ]
        exact hov
    | none =>
      have hinner := (scanInner_none b1 rest).1 hscan
      rw [Option.map_eq_none', ih]
      constructor
      · intro hall i j hij hj
        cases i with
        | zero =>
          cases j with
          | zero => omega
          | succ j1 =>
            rw [List.getD_cons_zero, List.getD_cons_succ]
            exact hinner j1 (by simpa using hj)
        | succ i1 =>
          cases j with
          | zero => omega
          | succ j1 =>
            rw [List.getD_cons_succ, List.getD_cons_succ]
            exact hall i1 j1 (by omega) (by simpa using hj)
      · intro hall i j hij hj
        have := hall (i + 1) (j + 1) (by omega)
          (by simp only [List.length_cons]; omega)
        rwa [List.getD_cons_succ, List.getD_cons_succ] at this

/-- The outer scan returns some (i, j) exactly when (i, j) is the first
pair in scan order passing the overlap test. -/
theorem scanOuter_some (l : List PBody) (i j : ℕ) :
    scanOuter l = some (i, j) ↔
      i < j ∧ j < l.length ∧
      overlapTest (l.getD i default) (l.getD j default) ∧
      ∀ i' j', i' < j' → j' < l.length → (i' < i ∨ (i' = i ∧ j' < j)) →
        ¬ overlapTest (l.getD i' default) (l.getD j' default) := by
  classical
  induction l generalizing i j with
  | nil =>
    constructor
    · intro he
      exact absurd he (by simp [scanOuter])
    · rintro ⟨-, hj, -, -⟩
      exact absurd hj (by simp)
  | cons b1 rest ih =>
    have hunf : scanOuter (b1 :: rest) =
        (match scanInner b1 rest with
         | some k => some (0, k + 1)
         | none => (scanOuter rest).map (fun p => (p.1 + 1, p.2 + 1))) := rfl
    rw [hunf]
    cases hscan : scanInner b1 rest with
    | some k =>
      obtain ⟨hk, hov, hmin⟩ := (scanInner_some b1 rest k).1 hscan
      constructor
      · intro he
        have h2 := Option.some.inj he
        have hi : 0 = i := congrArg Prod.fst h2
        have hj : k + 1 = j := congrArg Prod.snd h2
        subst hi
        subst hj
        refine ⟨by omega, by simp only [List.length_cons]; omega, ?_, ?_⟩
        · rw [List.getD_cons_zero, List.getD_cons_succ]
          exact hov
        · intro i' j' hij' hj' hlex
          rcases hlex with h0 | ⟨hi0, hj'k⟩
          · omega
          · subst hi0
            cases j' with
            | zero => omega
            | succ j1 =>
              rw [List.getD_cons_zero, List.getD_cons_succ]
              exact hmin j1 (by omega)
      · rintro ⟨hij, hj, hov2, hmin2⟩
        have hi0 : i = 0 := by
          by_contra hi0
          have hne := hmin2 0 (k + 1) (by omega)
            (by simp only [List.length_cons]; omega) (Or.inl (by omega))
          rw [List.getD_cons_zero, List.getD_cons_succ] at hne
          exact hne hov
        subst hi0
        have hjk : j = k + 1 := by
          rcases Nat.lt_trichotomy j (k + 1) with hlt | heq | hgt
          · exfalso
            cases j with
            | zero => omega
            | succ j1 =>
              rw [List.getD_cons_zero, List.getD_cons_succ] at hov2
              exact hmin j1 (by omega) hov2
          · exact heq
          · exfalso
            have hne := hmin2 0 (k + 1) (by omega)
              (by simp only [List.length_cons]; omega) (Or.inr ⟨rfl, hgt⟩)
            rw [List.getD_cons_zero, List.getD_cons_succ] at hne
            exact hne hov
        subst hjk
        rfl
    | none =>
      have hinner := (scanInner_none b1 rest).1 hscan
      rw [Option.map_eq_some']
      constructor
      · rintro ⟨⟨i0, j0⟩, hs, he⟩
        have hi : i0 + 1 = i := congrArg Prod.fst he
        have hj : j0 + 1 = j := congrArg Prod.snd he
        subst hi
        subst hj
        obtain ⟨hij0, hj0, hov0, hmin0⟩ := (ih i0 j0).1 hs
        refine ⟨by omega, by simp only [List.length_cons]; omega, ?_, ?_⟩
        · rw [List.getD_cons_succ, List.getD_cons_succ]
          exact hov0
        · intro i' j' hij' hj' hlex
          cases i' with
          | zero =>
            cases j' with
            | zero => omega
            | succ j1 =>
              rw [List.getD_cons_zero, List.getD_cons_succ]
              exact hinner j1 (by simpa using hj')
          | succ i1 =>
            cases j' with
            | zero => omega
            | succ j1 =>
              rw [List.getD_cons_succ, List.getD_cons_succ]
              apply hmin0 i1 j1 (by omega) (by simpa using hj')
              rcases hlex with h | ⟨heq, hlt⟩
              · exact Or.inl (by omega)
              · exact Or.inr ⟨by omega, by omega⟩
      · rintro ⟨hij, hj, hov2, hmin2⟩
        cases i with
        | zero =>
          exfalso
          cases j with
          | zero => omega
          | succ j1 =>
            rw [List.getD_cons_zero, List.getD_cons_succ] at hov2
            exact hinner j1 (by simpa using hj) hov2
        | succ i1 =>
          cases j with
          | zero => omega
          | succ j1 =>
            refine ⟨(i1, j1), ?_, rfl⟩
            rw [ih i1 j1]
            rw [List.getD_cons_succ, List.getD_cons_succ] at hov2
            refine ⟨by omega, by simpa using hj, hov2, ?_⟩
            intro i' j' hij' hj' hlex
            have hlex2 : i' + 1 < i1 + 1 ∨
                (i' + 1 = i1 + 1 ∧ j' + 1 < j1 + 1) := by
              rcases hlex with h | ⟨heq, hlt⟩
              · exact Or.inl (by omega)
              · exact Or.inr ⟨by omega, by omega⟩
            have := hmin2 (i' + 1) (j' + 1) (by omega)
              (by simp only [List.length_cons]; omega) hlex2
            rwa [List.getD_cons_succ, List.getD_cons_succ] at this

/-- C9: AccretionMerger pass behaviour.  For a world of circles with
positive masses: when no pair overlaps the pass returns the flag false
and leaves the world unchanged (it never errors on nothing to merge);
when (i, j) is the first overlapping pair in scan order (outer index i
ascending, inner index j > i ascending), the pass merges exactly that
pair and returns the flag true; and the flag is true iff some
overlapping pair exists. -/
theorem merge_overlaps_once_spec (w : List PBody)
    (hm : ∀ b ∈ w, 0 < b.m) :
    ((¬ ∃ i j, i < j ∧ j < w.length ∧
        circleOverlap (w.getD i default) (w.getD j default)) →
      merge_overlaps_once w = (false, w)) ∧
    (∀ i j, FirstOverlap w i j →
      merge_overlaps_once w = (true, mergeAt w i j)) ∧
    ((merge_overlaps_once w).1 = true ↔
      ∃ i j, i < j ∧ j < w.length ∧
        circleOverlap (w.getD i default) (w.getD j default)) := by
  classical
  refine ⟨?_, ?_, ?_⟩
  · intro hno
    have hnone : scanOuter w = none := by
      rw [scanOuter_none]
      intro i j hij hj
      rw [overlapTest_iff]
      exact fun hov => hno ⟨i, j, hij, hj, hov⟩
    show (match scanOuter w with
      | some (i, j) => (true, merge_pair_at w i j)
      | none => (false, w)) = (false, w)
    rw [hnone]
  · rintro i j ⟨hij, hj, hov, hmin⟩
    have hsome : scanOuter w = some (i, j) := by
      rw [scanOuter_some]
      refine ⟨hij, hj, (overlapTest_iff _ _).2 hov, ?_⟩
      intro i' j' hij' hj' hlex
      rw [overlapTest_iff]
      exact hmin i' j' hij' hj' hlex
    have hmerge : merge_pair_at w i j = mergeAt w i j := by
      rw [merge_pair_at, if_neg]
      push_neg
      have hmi : 0 < (w.getD i default).m := by
        rw [List.getD_eq_getElem w default (by omega : i < w.length)]
        exact hm _ (List.getElem_mem _)
      have hmj : 0 < (w.getD j default).m := by
        rw [List.getD_eq_getElem w default hj]
        exact hm _ (List.getElem_mem _)
      linarith
    show (match scanOuter w with
      | some (i, j) => (true, merge_pair_at w i j)
      | none => (false, w)) = (true, mergeAt w i j)
    rw [hsome]
    show (true, merge_pair_at w i j) = (true, mergeAt w i j)
    rw [hmerge]
  · cases hscan : scanOuter w with
    | some p =>
      obtain ⟨i, j⟩ := p
      obtain ⟨hij, hj, hov, -⟩ := (scanOuter_some w i j).1 hscan
      have hflag : (merge_overlaps_once w).1 = true := by
        show ((match scanOuter w with
          | some (i, j) => (true, merge_pair_at w i j)
          | none => (false, w)).1 : Bool) = true
        rw [hscan]
      rw [hflag]
      simp only [true_iff]
      exact ⟨i, j, hij, hj, (overlapTest_iff _ _).1 hov⟩
    | none =>
      have hflag : (merge_overlaps_once w).1 = false := by
        show ((match scanOuter w with
          | some (i, j) => (true, merge_pair_at w i j)
          | none => (false, w)).1 : Bool) = false
        rw [hscan]
      rw [hflag]
      simp only [Bool.false_eq_true, false_iff]
      rintro ⟨i, j, hij, hj, hov⟩
      exact (scanOuter_none w).1 hscan i j hij hj ((overlapTest_iff _ _).2 hov)

/-- C9 witness: the pass behaviour on the concrete one-body world (mass
1), where nothing can merge. -/
theorem merge_overlaps_once_spec_witness :
    (merge_overlaps_once [⟨0, 0, 0, 0, 1, 1⟩]).1 = true ↔
      ∃ i j, i < j ∧ j < ([⟨0, 0, 0, 0, 1, 1⟩] : List PBody).length ∧
        circleOverlap (([⟨0, 0, 0, 0, 1, 1⟩] : List PBody).getD i default)
          (([⟨0, 0, 0, 0, 1, 1⟩] : List PBody).getD j default) :=
  (merge_overlaps_once_spec [⟨0, 0, 0, 0, 1, 1⟩] (by
    intro b hb
    rw [List.mem_singleton] at hb
    subst hb
    norm_num)).2.2

/-! ### The _merge_pair guards at shape level (C10)

planet.py, _merge_pair lines 143-156: the operation receives two shape
references; it returns without touching the world when either shape is
no longer in the space, when either shape is not a circle (the space
also holds non-circle shapes, e.g. segments), or when the combined mass
is not strictly positive. -/

/-- A shape of the world: a circle carrying its body data, or a segment
(planet.py's worlds only hold circles, BouncingBalls.py's also hold the
two static segments). -/
inductive PShape where
  | circle (b : PBody)
  | segment (x1 y1 x2 y2 : ℝ)

instance : Inhabited PShape := ⟨PShape.circle default⟩

/-- The `isinstance(s, pymunk.Circle)` check of _merge_pair line 149. -/
def PShape.isCircle : PShape → Prop
  | .circle _ => True
  | .segment _ _ _ _ => False

/-- The `getattr(s, "mass", 1.0)` reads of _merge_pair lines 152-153
(the default 1.0 is only nominal: non-circles never reach the mass
read because the circle guard returns first). -/
noncomputable def PShape.mass : PShape → ℝ
  | .circle b => b.m
  | .segment _ _ _ _ => 1

open Classical in
/-- planet.py, _merge_pair lines 143-183, over a world given as a shape
list with the two shapes named by index: return the world unchanged if
either shape is gone from the space (modelled as an out-of-range index),
if either shape is not a circle, or if the combined mass is not
positive; otherwise replace the two circles by the merged one. -/
noncomputable def merge_pair (w : List PShape) (i j : ℕ) : List PShape :=
  if w.length ≤ i ∨ w.length ≤ j then w
  else
    match w.getD i default, w.getD j default with
    | .circle b1, .circle b2 =>
      if b1.m + b2.m ≤ 0 then w
      else ((w.eraseIdx (max i j)).eraseIdx (min i j)) ++
        [.circle (mergedBody b1 b2)]
    | _, _ => w

/-- C10: Implicit merge guard.  If either named shape is not a circle,
or the combined mass is not strictly positive, the merge operation
returns the world completely unchanged — no body is removed or
inserted. -/
theorem merge_pair_guard (w : List PShape) (i j : ℕ)
    (h : ¬ (w.getD i default).isCircle ∨ ¬ (w.getD j default).isCircle ∨
      (w.getD i default).mass + (w.getD j default).mass ≤ 0) :
    merge_pair w i j = w := by
  classical
  rw [merge_pair]
  by_cases hb : w.length ≤ i ∨ w.length ≤ j
  · rw [if_pos hb]
  · rw [if_neg hb]
    cases hsi : w.getD i default with
    | segment x1 y1 x2 y2 => rfl
    | circle b1 =>
      cases hsj : w.getD j default with
      | segment x1 y1 x2 y2 => rfl
      | circle b2 =>
        show (if b1.m + b2.m ≤ 0 then w
          else ((w.eraseIdx (max i j)).eraseIdx (min i j)) ++
            [PShape.circle (mergedBody b1 b2)]) = w
        rw [if_pos]
        rcases h with h | h | h
        · rw [hsi] at h
          exact absurd trivial h
        · rw [hsj] at h
          exact absurd trivial h
        · rw [hsi, hsj] at h
          exact h

/-- C10 witness: merging a segment with a circle leaves the concrete
two-shape world unchanged. -/
theorem merge_pair_guard_witness :
    merge_pair [PShape.segment 0 0 1 1, PShape.circle ⟨5, 5, 0, 0, 1, 1⟩]
      0 1 =
    [PShape.segment 0 0 1 1, PShape.circle ⟨5, 5, 0, 0, 1, 1⟩] :=
  merge_pair_guard _ 0 1 (Or.inl (by
    show ¬ (PShape.segment (0:ℝ) 0 1 1).isCircle
    simp [PShape.isCircle]))

end PlanetSim
